import Mathlib

/-!
# NEXUS dashboard: grid-walk planner and sphere projector

A shallow embedding of the two algorithmic parts of `src/App.jsx`:

* `calculatePath` (lines 144-155): the rover path construction, two `while`
  loops that first advance the column and then the row;
* the per-particle projection inside `PlanetCanvas.render` (lines 84-110).

Grid indices are small non-negative integers, so `Math.floor (a / b)` and
`a % b` are `Nat` division and remainder.
-/

namespace Nexus

/-! ## Grid-walk planner -/

/-- The grid side used by `RoverSystem` (`const GRID_SIZE = 5`). -/
def GRID_SIZE : Nat := 5

/-- The loop `while (c < targetCol) { c++; newPath.push(r * GRID_SIZE + c); }`.
Returns the final value of `c` together with the extended `newPath`. -/
def colLoop (gridSize r targetCol c : Nat) (newPath : List Nat) : Nat × List Nat :=
  if c < targetCol then
    colLoop gridSize r targetCol (c + 1) (newPath ++ [r * gridSize + (c + 1)])
  else
    (c, newPath)
termination_by targetCol - c

/-- The loop `while (r < targetRow) { r++; newPath.push(r * GRID_SIZE + c); }`.
Returns the final value of `r` together with the extended `newPath`. -/
def rowLoop (gridSize c targetRow r : Nat) (newPath : List Nat) : Nat × List Nat :=
  if r < targetRow then
    rowLoop gridSize c targetRow (r + 1) (newPath ++ [(r + 1) * gridSize + c])
  else
    (r, newPath)
termination_by targetRow - r

/-- The body of the `setTimeout` callback of `calculatePath` up to `setPath(newPath)`:
the value of `newPath` for rover position `roverPos`, target `targetPos` and grid
side `gridSize` (the source fixes `gridSize = GRID_SIZE`). -/
def calculatePath (roverPos targetPos gridSize : Nat) : List Nat :=
  let current := roverPos
  let row := current / gridSize
  let col := current % gridSize
  let targetRow := targetPos / gridSize
  let targetCol := targetPos % gridSize
  let afterCols := colLoop gridSize row targetCol col []
  let afterRows := rowLoop gridSize afterCols.1 targetRow row afterCols.2
  afterRows.2

/-- The column steps as the specification words them: `startRow*N + c` for
`c = startCol+1 .. targetCol` (empty if `targetCol ≤ startCol`). -/
def colSteps (start target N : Nat) : List Nat :=
  (List.Ico (start % N + 1) (target % N + 1)).map (fun c => (start / N) * N + c)

/-- The row steps as the specification words them: `r*N + max startCol targetCol` for
`r = startRow+1 .. targetRow` (empty if `targetRow ≤ startRow`). -/
def rowSteps (start target N : Nat) : List Nat :=
  (List.Ico (start / N + 1) (target / N + 1)).map
    (fun r => r * N + max (start % N) (target % N))

/-- The path as the specification words it: the column steps followed by the row
steps. -/
def planSpec (start target N : Nat) : List Nat :=
  colSteps start target N ++ rowSteps start target N

/-! ## Sphere projector

The per-particle arithmetic of `PlanetCanvas.render`, over any ordered field and
with `Math.sin` and `Math.cos` passed in, so that the same definitions can be run
on rationals and reasoned about over the reals (with `Real.sin`, `Real.cos`). -/

namespace PlanetCanvas

section
variable {α : Type} [LinearOrderedField α]

/-- The fixed inclination `const tilt = 0.3`. -/
def tilt : α := 3 / 10

/-- Source: `x = radius * Math.sin(p.phi) * Math.cos(p.theta + rotation)`. -/
def x (sin cos : α → α) (radius phi theta rotation : α) : α :=
  radius * sin phi * cos (theta + rotation)

/-- Source: `y = radius * Math.sin(p.phi) * Math.sin(p.theta + rotation)`. -/
def y (sin : α → α) (radius phi theta rotation : α) : α :=
  radius * sin phi * sin (theta + rotation)

/-- Source: `z = radius * Math.cos(p.phi)`. -/
def z (cos : α → α) (radius phi : α) : α :=
  radius * cos phi

/-- Source: `y_tilted = y * Math.cos(tilt) - z * Math.sin(tilt)`. -/
def y_tilted (sin cos : α → α) (radius phi theta rotation tilt : α) : α :=
  y sin radius phi theta rotation * cos tilt - z cos radius phi * sin tilt

/-- Source: `z_tilted = y * Math.sin(tilt) + z * Math.cos(tilt)`. -/
def z_tilted (sin cos : α → α) (radius phi theta rotation tilt : α) : α :=
  y sin radius phi theta rotation * sin tilt + z cos radius phi * cos tilt

/-- Source: `scale = 300 / (300 - z_tilted)`. -/
def scale (sin cos : α → α) (radius phi theta rotation tilt : α) : α :=
  300 / (300 - z_tilted sin cos radius phi theta rotation tilt)

/-- Source: `x2d = cx + x * scale`. -/
def x2d (sin cos : α → α) (cx radius phi theta rotation tilt : α) : α :=
  cx + x sin cos radius phi theta rotation * scale sin cos radius phi theta rotation tilt

/-- Source: `y2d = cy + y_tilted * scale`. -/
def y2d (sin cos : α → α) (cy radius phi theta rotation tilt : α) : α :=
  cy + y_tilted sin cos radius phi theta rotation tilt
    * scale sin cos radius phi theta rotation tilt

/-- Source: `alpha = Math.abs(z_tilted) / radius`. -/
def alpha (sin cos : α → α) (radius phi theta rotation tilt : α) : α :=
  |z_tilted sin cos radius phi theta rotation tilt| / radius

end

end PlanetCanvas

/-! ## Simulated telemetry

The sensor values of `NexusCommand` (`oxygen`, `temp`, `energy`), the update done by
the one-second interval and `handleReboot`. The values of `Math.random()` are
inputs of the tick. The arithmetic is over any ordered field; `0.5` is `1 / 2`,
`98.5` is `197 / 2`, `87.4` is `437 / 5` and `0.05` is `1 / 20`. -/

namespace NexusCommand

section
variable {α : Type} [LinearOrderedField α]

/-- The sensor part of the component state. -/
structure Telemetry (α : Type) where
  oxygen : α
  temp : α
  energy : α

/-- Source: `useState(98.5)`, `useState(-62.0)`, `useState(87.4)`. -/
def initial : Telemetry α :=
  { oxygen := 197 / 2, temp := -62, energy := 437 / 5 }

/-- The sensor updates of the interval callback, with `u` and `v` the two values of
`Math.random()`:
`setOxygen(prev => Math.min(100, Math.max(90, prev + (Math.random() - 0.5))))`,
`setTemp(prev => prev + (Math.random() - 0.5))`,
`setEnergy(prev => Math.max(0, prev - 0.05))`. -/
def tick (s : Telemetry α) (u v : α) : Telemetry α :=
  { oxygen := min 100 (max 90 (s.oxygen + (u - 1 / 2)))
    temp := s.temp + (v - 1 / 2)
    energy := max 0 (s.energy - 1 / 20) }

/-- Source: `handleReboot`, `setOxygen(100); setEnergy(100)`. -/
def handleReboot (s : Telemetry α) : Telemetry α :=
  { s with oxygen := 100, energy := 100 }

/-- What can change the sensor values: an interval tick with its two random samples,
or a press of the reboot button. -/
inductive Event (α : Type) where
  | tick (u v : α)
  | reboot

/-- A sample of `Math.random()` lies in `[0, 1)`. -/
def Event.valid : Event α → Bool
  | Event.tick u v => decide (0 ≤ u) && decide (u < 1) && decide (0 ≤ v) && decide (v < 1)
  | Event.reboot => true

/-- One transition of the sensor state. -/
def step (s : Telemetry α) : Event α → Telemetry α
  | Event.tick u v => tick s u v
  | Event.reboot => handleReboot s

/-- The sensor state after a sequence of events. -/
def run (s : Telemetry α) (events : List (Event α)) : Telemetry α :=
  events.foldl step s

end

end NexusCommand

/-! ## Rover animation

The state of `RoverSystem` and its three callbacks: the click on the start button
(`calculatePath`), the 800 ms `setTimeout` callback that builds the path and starts
the interval, and the 300 ms `setInterval` callback. The callbacks read the local
`newPath`, which is the value given to `setPath` and is not changed afterwards, so
the field `path` stands for both. -/

namespace RoverSystem

/-- The component state, the counter `step` of the running animation and which of
the two timers is armed. -/
structure RoverState where
  roverPos : Nat
  targetPos : Nat
  path : List Nat
  isComputing : Bool
  step : Nat
  timeoutPending : Bool
  intervalActive : Bool

/-- Source: `useState(0)`, `useState(24)`, `useState([])`, `useState(false)`. -/
def initial : RoverState :=
  { roverPos := 0, targetPos := 24, path := [], isComputing := false, step := 0,
    timeoutPending := false, intervalActive := false }

/-- Source: `disabled={isComputing || roverPos === targetPos}` on the start button. -/
def disabled (s : RoverState) : Bool :=
  s.isComputing || s.roverPos == s.targetPos

/-- A click on the start button: nothing when the button is disabled, otherwise the
synchronous part of `calculatePath`, `setIsComputing(true)` and the `setTimeout`. -/
def onClick (s : RoverState) : RoverState :=
  if disabled s then s
  else { s with isComputing := true, timeoutPending := true }

/-- The `setTimeout` callback: `newPath` is computed from `roverPos` and `targetPos`,
`setPath(newPath)`, `let step = 0` and the interval is started. -/
def timeoutFire (s : RoverState) : RoverState :=
  if s.timeoutPending then
    { s with path := calculatePath s.roverPos s.targetPos GRID_SIZE, step := 0,
             timeoutPending := false, intervalActive := true }
  else s

/-- The `setInterval` callback:
`if (step < newPath.length) { setRoverPos(newPath[step]); step++; }
 else { clearInterval(moveInterval); setIsComputing(false); }`. -/
def intervalFire (s : RoverState) : RoverState :=
  if s.intervalActive then
    if h : s.step < s.path.length then
      { s with roverPos := s.path[s.step], step := s.step + 1 }
    else
      { s with intervalActive := false, isComputing := false }
  else s

/-- The state after `k` firings of the interval. -/
def intervalFires : Nat → RoverState → RoverState
  | 0, s => s
  | k + 1, s => intervalFire (intervalFires k s)

/-- The state in which the animation starts: a click followed by the timeout. -/
def planned (s : RoverState) : RoverState :=
  timeoutFire (onClick s)

end RoverSystem

/-! ### The loops in closed form -/

theorem colLoop_eq (gridSize r targetCol : Nat) :
    ∀ (n c : Nat) (newPath : List Nat), targetCol - c = n →
      colLoop gridSize r targetCol c newPath
        = (max c targetCol,
            newPath ++ (List.range' (c + 1) (targetCol - c)).map (fun k => r * gridSize + k)) := by
  intro n
  induction n with
  | zero =>
    intro c newPath h
    have hc : ¬ c < targetCol := by omega
    rw [colLoop, if_neg hc, h]
    simp
    omega
  | succ n ih =>
    intro c newPath h
    have hc : c < targetCol := by omega
    rw [colLoop, if_pos hc, ih (c + 1) _ (by omega)]
    have h1 : targetCol - c = (targetCol - (c + 1)) + 1 := by omega
    rw [h1, List.range'_succ]
    simp
    omega

theorem rowLoop_eq (gridSize c targetRow : Nat) :
    ∀ (n r : Nat) (newPath : List Nat), targetRow - r = n →
      rowLoop gridSize c targetRow r newPath
        = (max r targetRow,
            newPath ++ (List.range' (r + 1) (targetRow - r)).map (fun k => k * gridSize + c)) := by
  intro n
  induction n with
  | zero =>
    intro r newPath h
    have hr : ¬ r < targetRow := by omega
    rw [rowLoop, if_neg hr, h]
    simp
    omega
  | succ n ih =>
    intro r newPath h
    have hr : r < targetRow := by omega
    rw [rowLoop, if_pos hr, ih (r + 1) _ (by omega)]
    have h1 : targetRow - r = (targetRow - (r + 1)) + 1 := by omega
    rw [h1, List.range'_succ]
    simp
    omega

/-- The planner output is the column steps followed by the row steps. -/
theorem calculatePath_eq (roverPos targetPos gridSize : Nat) :
    calculatePath roverPos targetPos gridSize
      = (List.range' (roverPos % gridSize + 1) (targetPos % gridSize - roverPos % gridSize)).map
            (fun k => (roverPos / gridSize) * gridSize + k)
        ++ (List.range' (roverPos / gridSize + 1) (targetPos / gridSize - roverPos / gridSize)).map
            (fun k => k * gridSize + max (roverPos % gridSize) (targetPos % gridSize)) := by
  simp only [calculatePath]
  rw [colLoop_eq gridSize _ _ _ _ _ rfl]
  rw [rowLoop_eq gridSize _ _ _ _ _ rfl]
  simp

theorem mem_calculatePath (x roverPos targetPos gridSize : Nat) :
    x ∈ calculatePath roverPos targetPos gridSize ↔
      (∃ k, roverPos % gridSize < k ∧ k ≤ targetPos % gridSize
          ∧ x = (roverPos / gridSize) * gridSize + k)
      ∨ (∃ k, roverPos / gridSize < k ∧ k ≤ targetPos / gridSize
          ∧ x = k * gridSize + max (roverPos % gridSize) (targetPos % gridSize)) := by
  rw [calculatePath_eq, List.mem_append, List.mem_map, List.mem_map]
  constructor
  · rintro (⟨k, hk, rfl⟩ | ⟨k, hk, rfl⟩)
    · rw [List.mem_range'_1] at hk
      exact Or.inl ⟨k, by omega, by omega, rfl⟩
    · rw [List.mem_range'_1] at hk
      exact Or.inr ⟨k, by omega, by omega, rfl⟩
  · rintro (⟨k, h1, h2, rfl⟩ | ⟨k, h1, h2, rfl⟩)
    · exact Or.inl ⟨k, by rw [List.mem_range'_1]; omega, rfl⟩
    · exact Or.inr ⟨k, by rw [List.mem_range'_1]; omega, rfl⟩

theorem length_calculatePath (roverPos targetPos gridSize : Nat) :
    (calculatePath roverPos targetPos gridSize).length
      = (targetPos % gridSize - roverPos % gridSize)
        + (targetPos / gridSize - roverPos / gridSize) := by
  rw [calculatePath_eq]
  simp

theorem getLast?_map_range' (f : Nat → Nat) (s n : Nat) :
    ((List.range' s (n + 1)).map f).getLast? = some (f (s + n)) := by
  rw [List.range'_concat, List.map_append]
  simp

/-- The last pushed index: the last row step if there is one, otherwise the last
column step if there is one. -/
theorem getLast?_calculatePath (roverPos targetPos gridSize : Nat) :
    (calculatePath roverPos targetPos gridSize).getLast?
      = if roverPos / gridSize < targetPos / gridSize then
          some (targetPos / gridSize * gridSize
                  + max (roverPos % gridSize) (targetPos % gridSize))
        else if roverPos % gridSize < targetPos % gridSize then
          some (roverPos / gridSize * gridSize + targetPos % gridSize)
        else none := by
  rw [calculatePath_eq]
  by_cases hr : roverPos / gridSize < targetPos / gridSize
  · rw [if_pos hr]
    obtain ⟨n, hn⟩ : ∃ n, targetPos / gridSize - roverPos / gridSize = n + 1 :=
      ⟨targetPos / gridSize - roverPos / gridSize - 1, by omega⟩
    rw [hn, List.getLast?_append, getLast?_map_range']
    have : roverPos / gridSize + 1 + n = targetPos / gridSize := by omega
    simp [this]
  · rw [if_neg hr]
    have h0 : targetPos / gridSize - roverPos / gridSize = 0 := by omega
    rw [h0]
    simp only [List.range'_zero, List.map_nil, List.append_nil]
    by_cases hc : roverPos % gridSize < targetPos % gridSize
    · rw [if_pos hc]
      obtain ⟨n, hn⟩ : ∃ n, targetPos % gridSize - roverPos % gridSize = n + 1 :=
        ⟨targetPos % gridSize - roverPos % gridSize - 1, by omega⟩
      rw [hn, getLast?_map_range']
      have : roverPos % gridSize + 1 + n = targetPos % gridSize := by omega
      simp [this]
    · rw [if_neg hc]
      have h1 : targetPos % gridSize - roverPos % gridSize = 0 := by omega
      rw [h1]
      simp

theorem div_mul_add_mod (a b : Nat) : a / b * b + a % b = a := by
  rw [Nat.mul_comm]; exact Nat.div_add_mod a b

/-! ### Claims about the planner -/

/-- C1: for every grid size `N ≥ 1` and every `start`, `target` below `N*N`, the path
built by `calculatePath` never contains the start index. -/
theorem start_not_mem_calculatePath (N start target : Nat) (hN : 1 ≤ N)
    (hs : start < N * N) (ht : target < N * N) :
    start ∉ calculatePath start target N := by
  have _ := hs
  have _ := ht
  have hdm := div_mul_add_mod start N
  have hcol : start % N < N := Nat.mod_lt _ (by omega)
  rw [mem_calculatePath]
  rintro (⟨k, h1, _, h3⟩ | ⟨k, h1, _, h3⟩)
  · omega
  · have hk : (start / N + 1) * N ≤ k * N := Nat.mul_le_mul_right N h1
    rw [Nat.add_mul, Nat.one_mul] at hk
    omega

theorem start_not_mem_calculatePath_witness :
    1 ≤ 5 ∧ 0 < 5 * 5 ∧ 24 < 5 * 5 ∧ 0 ∉ calculatePath 0 24 5 :=
  ⟨by decide, by decide, by decide,
    start_not_mem_calculatePath 5 0 24 (by decide) (by decide) (by decide)⟩

/-- C2 as stated fails: on the 5 by 5 grid, from cell 4 (row 0, column 4) to cell 5
(row 1, column 0) the path is `[9]`: it is non-empty and its last element is 9, not
the target 5. -/
theorem last_ne_target_counterexample :
    1 ≤ 5 ∧ 4 < 5 * 5 ∧ 5 < 5 * 5 ∧ calculatePath 4 5 5 = [9]
      ∧ calculatePath 4 5 5 ≠ [] ∧ (calculatePath 4 5 5).getLast? ≠ some 5 := by
  have h : calculatePath 4 5 5 = [9] := by rw [calculatePath_eq]; decide
  refine ⟨by decide, by decide, by decide, h, ?_, ?_⟩
  · rw [h]; decide
  · rw [h]; decide

/-- C2 amended: for every `N ≥ 1` and every `start`, `target` below `N*N`, a non-empty
path ends at the target exactly when the target is neither above nor left of the
start (target row `≥` start row and target column `≥` start column). -/
theorem last_eq_target_iff_reachable (N start target : Nat) (hN : 1 ≤ N)
    (hs : start < N * N) (ht : target < N * N)
    (hne : calculatePath start target N ≠ []) :
    (calculatePath start target N).getLast? = some target
      ↔ (start / N ≤ target / N ∧ start % N ≤ target % N) := by
  have _ := hs
  have _ := ht
  have hdt := div_mul_add_mod target N
  have hds := div_mul_add_mod start N
  have hcs : start % N < N := Nat.mod_lt _ (by omega)
  have hct : target % N < N := Nat.mod_lt _ (by omega)
  have hlen : (calculatePath start target N).length ≠ 0 := by
    intro h; exact hne (List.length_eq_zero.mp h)
  rw [length_calculatePath] at hlen
  rw [getLast?_calculatePath]
  by_cases hr : start / N < target / N
  · rw [if_pos hr, Option.some_inj]
    constructor
    · intro h; omega
    · rintro ⟨_, h2⟩
      rw [max_eq_right h2]; exact hdt
  · rw [if_neg hr]
    have hc : start % N < target % N := by omega
    rw [if_pos hc, Option.some_inj]
    constructor
    · intro h
      have hmul : target / N * N ≤ start / N * N := Nat.mul_le_mul_right N (by omega)
      have hrow : start / N * N = target / N * N := by omega
      have hpos : 0 < N := by omega
      have := Nat.eq_of_mul_eq_mul_right hpos hrow
      omega
    · rintro ⟨h1, _⟩
      have : start / N = target / N := by omega
      rw [this]; exact hdt

theorem last_eq_target_iff_reachable_witness :
    1 ≤ 5 ∧ 6 < 5 * 5 ∧ 8 < 5 * 5 ∧ calculatePath 6 8 5 ≠ []
      ∧ ((calculatePath 6 8 5).getLast? = some 8 ↔ (6 / 5 ≤ 8 / 5 ∧ 6 % 5 ≤ 8 % 5)) :=
  have hne : calculatePath 6 8 5 ≠ [] := by rw [calculatePath_eq]; decide
  ⟨by decide, by decide, by decide, hne,
    last_eq_target_iff_reachable 5 6 8 (by decide) (by decide) (by decide) hne⟩

/-- C3: for every `N ≥ 1` and every `start ≠ target` below `N*N` with target row `≥`
start row and target column `≥` start column, the path is non-empty and its final
emitted index is the target. -/
theorem reachable_path_ends_at_target (N start target : Nat) (hN : 1 ≤ N)
    (hs : start < N * N) (ht : target < N * N) (hst : start ≠ target)
    (hrow : start / N ≤ target / N) (hcol : start % N ≤ target % N) :
    calculatePath start target N ≠ []
      ∧ (calculatePath start target N).getLast? = some target := by
  have _ := hs
  have _ := ht
  have _ := hN
  have hdt := div_mul_add_mod target N
  have hds := div_mul_add_mod start N
  have hlast : (calculatePath start target N).getLast? = some target := by
    rw [getLast?_calculatePath]
    by_cases hr : start / N < target / N
    · rw [if_pos hr, max_eq_right hcol, hdt]
    · rw [if_neg hr]
      have heq : start / N = target / N := by omega
      have hc : start % N < target % N := by
        rcases Nat.lt_or_ge (start % N) (target % N) with h | h
        · exact h
        · exfalso
          apply hst
          have : start % N = target % N := by omega
          rw [← hds, ← hdt, heq, this]
      rw [if_pos hc, heq, hdt]
  refine ⟨?_, hlast⟩
  intro h
  rw [h] at hlast
  simp at hlast

theorem reachable_path_ends_at_target_witness :
    1 ≤ 5 ∧ 6 < 5 * 5 ∧ 23 < 5 * 5 ∧ 6 ≠ 23 ∧ 6 / 5 ≤ 23 / 5 ∧ 6 % 5 ≤ 23 % 5
      ∧ calculatePath 6 23 5 ≠ [] ∧ (calculatePath 6 23 5).getLast? = some 23 :=
  ⟨by decide, by decide, by decide, by decide, by decide, by decide,
    reachable_path_ends_at_target 5 6 23 (by decide) (by decide) (by decide) (by decide)
      (by decide) (by decide)⟩

/-- C4: for every `N ≥ 1` and every `s` below `N*N`, planning from `s` to `s` gives
the empty path. -/
theorem calculatePath_self (N s : Nat) (hN : 1 ≤ N) (hs : s < N * N) :
    calculatePath s s N = [] := by
  have _ := hN
  have _ := hs
  rw [calculatePath_eq]
  simp

theorem calculatePath_self_witness :
    1 ≤ 5 ∧ 7 < 5 * 5 ∧ calculatePath 7 7 5 = [] :=
  ⟨by decide, by decide, calculatePath_self 5 7 (by decide) (by decide)⟩

theorem corner_div_mod (N : Nat) (hN : 1 ≤ N) :
    (N * N - 1) / N = N - 1 ∧ (N * N - 1) % N = N - 1 := by
  obtain ⟨m, rfl⟩ : ∃ m, N = m + 1 := ⟨N - 1, by omega⟩
  have h : (m + 1) * (m + 1) - 1 = m + (m + 1) * m := by
    have : (m + 1) * (m + 1) = m + (m + 1) * m + 1 := by ring
    omega
  rw [h]
  constructor
  · rw [Nat.add_mul_div_left _ _ (Nat.succ_pos m), Nat.div_eq_of_lt (Nat.lt_succ_self m)]
    omega
  · rw [Nat.add_mul_mod_self_left, Nat.mod_eq_of_lt (Nat.lt_succ_self m)]
    omega

/-- C5: for every `N ≥ 1` the path from cell 0 to cell `N*N-1` has exactly `2*(N-1)`
elements, for `N ≥ 2` its last element is `N*N-1`, and on the 5 by 5 grid of the
source it is `[1,2,3,4,9,14,19,24]`. -/
theorem calculatePath_full_diagonal (N : Nat) (hN : 1 ≤ N) :
    (calculatePath 0 (N * N - 1) N).length = 2 * (N - 1)
      ∧ (2 ≤ N → (calculatePath 0 (N * N - 1) N).getLast? = some (N * N - 1))
      ∧ (N = GRID_SIZE → calculatePath 0 (N * N - 1) N = [1, 2, 3, 4, 9, 14, 19, 24]) := by
  obtain ⟨hd, hm⟩ := corner_div_mod N hN
  refine ⟨?_, ?_, ?_⟩
  · rw [length_calculatePath, hd, hm]
    simp
    omega
  · intro h2
    have hdt := div_mul_add_mod (N * N - 1) N
    rw [getLast?_calculatePath, hd, hm]
    rw [hd, hm] at hdt
    have h0 : 0 / N < N - 1 := by simp; omega
    have hmax : max (0 % N) (N - 1) = N - 1 := by simp
    rw [if_pos h0, hmax, hdt]
  · rintro rfl
    rw [calculatePath_eq]
    decide

theorem calculatePath_full_diagonal_witness :
    1 ≤ 5 ∧ (calculatePath 0 (5 * 5 - 1) 5).length = 2 * (5 - 1)
      ∧ (2 ≤ 5 → (calculatePath 0 (5 * 5 - 1) 5).getLast? = some (5 * 5 - 1))
      ∧ (5 = GRID_SIZE → calculatePath 0 (5 * 5 - 1) 5 = [1, 2, 3, 4, 9, 14, 19, 24]) :=
  ⟨by decide, calculatePath_full_diagonal 5 (by decide)⟩

/-- C6: for every `N ≥ 1` and every `start`, `target` below `N*N`, the path is exactly
the column steps followed by the row steps as the specification lists them, the first
loop emitting exactly the column steps; on the 5 by 5 grid, 6 to 8 gives `[7, 8]`. -/
theorem calculatePath_eq_planSpec (N start target : Nat) (hN : 1 ≤ N)
    (hs : start < N * N) (ht : target < N * N) :
    calculatePath start target N = planSpec start target N
      ∧ (colLoop N (start / N) (target % N) (start % N) []).2 = colSteps start target N
      ∧ (N = GRID_SIZE → start = 6 → target = 8 → calculatePath start target N = [7, 8]) := by
  have _ := hN
  have _ := hs
  have _ := ht
  refine ⟨?_, ?_, ?_⟩
  · rw [calculatePath_eq, planSpec, colSteps, rowSteps, List.Ico, List.Ico]
    simp
  · rw [colLoop_eq N _ _ _ _ _ rfl, colSteps, List.Ico]
    simp
  · rintro rfl rfl rfl
    rw [calculatePath_eq]
    decide

theorem calculatePath_eq_planSpec_witness :
    1 ≤ 5 ∧ 6 < 5 * 5 ∧ 8 < 5 * 5
      ∧ calculatePath 6 8 5 = planSpec 6 8 5
      ∧ (colLoop 5 (6 / 5) (8 % 5) (6 % 5) []).2 = colSteps 6 8 5
      ∧ (5 = GRID_SIZE → 6 = 6 → 8 = 8 → calculatePath 6 8 5 = [7, 8]) :=
  ⟨by decide, by decide, by decide,
    calculatePath_eq_planSpec 5 6 8 (by decide) (by decide) (by decide)⟩

/-- C7: for every `N ≥ 1` and every `start`, `target` below `N*N`: if the target
column is smaller than the start column the column loop emits nothing and every
emitted cell lies in the start column; if the target row is smaller than the start
row the row loop emits nothing and every emitted cell lies in the start row; if both
hold the path is empty (on the 5 by 5 grid, 24 to 0 gives the empty path). -/
theorem calculatePath_no_left_no_up (N start target : Nat) (hN : 1 ≤ N)
    (hs : start < N * N) (ht : target < N * N) :
    (target % N < start % N →
        (colLoop N (start / N) (target % N) (start % N) []).2 = []
          ∧ ∀ x ∈ calculatePath start target N, x % N = start % N)
      ∧ (target / N < start / N →
        calculatePath start target N
            = (colLoop N (start / N) (target % N) (start % N) []).2
          ∧ ∀ x ∈ calculatePath start target N, x / N = start / N)
      ∧ (target % N < start % N → target / N < start / N →
        calculatePath start target N = [])
      ∧ (N = GRID_SIZE → start = 24 → target = 0 → calculatePath start target N = []) := by
  have _ := hs
  have _ := ht
  have hpos : 0 < N := by omega
  have hct : target % N < N := Nat.mod_lt _ hpos
  refine ⟨?_, ?_, ?_, ?_⟩
  · intro hc
    constructor
    · rw [colLoop_eq N _ _ _ _ _ rfl]
      have h0 : target % N - start % N = 0 := by omega
      simp [h0]
    · intro x hx
      rw [mem_calculatePath] at hx
      rcases hx with ⟨k, h1, h2, _⟩ | ⟨k, _, _, rfl⟩
      · omega
      · rw [max_eq_left (by omega), Nat.add_comm, Nat.add_mul_mod_self_right, Nat.mod_mod]
  · intro hr
    constructor
    · rw [calculatePath_eq, colLoop_eq N _ _ _ _ _ rfl]
      have h0 : target / N - start / N = 0 := by omega
      simp [h0]
    · intro x hx
      rw [mem_calculatePath] at hx
      rcases hx with ⟨k, _, h2, rfl⟩ | ⟨k, h1, h2, _⟩
      · rw [Nat.add_comm, Nat.add_mul_div_right _ _ hpos, Nat.div_eq_of_lt (by omega)]
        omega
      · omega
  · intro hc hr
    rw [calculatePath_eq]
    have h0 : target / N - start / N = 0 := by omega
    have h1 : target % N - start % N = 0 := by omega
    simp [h0, h1]
  · rintro rfl rfl rfl
    rw [calculatePath_eq]
    decide

theorem calculatePath_no_left_no_up_witness :
    1 ≤ 5 ∧ 24 < 5 * 5 ∧ 0 < 5 * 5 ∧ 0 % 5 < 24 % 5 ∧ 0 / 5 < 24 / 5
      ∧ calculatePath 24 0 5 = [] :=
  ⟨by decide, by decide, by decide, by decide, by decide,
    (calculatePath_no_left_no_up 5 24 0 (by decide) (by decide) (by decide)).2.2.1
      (by decide) (by decide)⟩

/-- C8: for every `N ≥ 1` and every `start`, `target` below `N*N` with target row `≥`
start row and target column `≥` start column, the length of the path is the Manhattan
distance `(targetRow - startRow) + (targetCol - startCol)`. -/
theorem length_calculatePath_manhattan (N start target : Nat) (hN : 1 ≤ N)
    (hs : start < N * N) (ht : target < N * N)
    (hrow : start / N ≤ target / N) (hcol : start % N ≤ target % N) :
    (calculatePath start target N).length
      = (target / N - start / N) + (target % N - start % N) := by
  have _ := hN
  have _ := hs
  have _ := ht
  have _ := hrow
  have _ := hcol
  rw [length_calculatePath, Nat.add_comm]

theorem length_calculatePath_manhattan_witness :
    1 ≤ 5 ∧ 6 < 5 * 5 ∧ 23 < 5 * 5 ∧ 6 / 5 ≤ 23 / 5 ∧ 6 % 5 ≤ 23 % 5
      ∧ (calculatePath 6 23 5).length = (23 / 5 - 6 / 5) + (23 % 5 - 6 % 5) :=
  ⟨by decide, by decide, by decide, by decide, by decide,
    length_calculatePath_manhattan 5 6 23 (by decide) (by decide) (by decide) (by decide)
      (by decide)⟩

/-! ### Claims about the projector -/

namespace PlanetCanvas

/-- Over the reals the tilted depth is the radius times a quantity of absolute value
at most one. -/
theorem abs_z_tilted_le (R phi theta rotation t : ℝ) (hR : 0 ≤ R) :
    |z_tilted Real.sin Real.cos R phi theta rotation t| ≤ R := by
  have h1 := Real.sin_sq_add_cos_sq phi
  have h2 := Real.sin_sq_add_cos_sq (theta + rotation)
  have h3 := Real.sin_sq_add_cos_sq t
  set a := Real.sin phi
  set b := Real.cos phi
  set s := Real.sin (theta + rotation)
  set c := Real.cos (theta + rotation)
  set u := Real.sin t
  set v := Real.cos t
  have key : 1 - (a * s * u + b * v) ^ 2
      = (a * u * c) ^ 2 + (b * u * c) ^ 2 + (a * v - b * u * s) ^ 2 := by
    linear_combination (-(u ^ 2 + v ^ 2)) * h1 - h3 - (a ^ 2 * u ^ 2 + b ^ 2 * u ^ 2) * h2
  have hsq : (a * s * u + b * v) ^ 2 ≤ 1 := by
    nlinarith [sq_nonneg (a * u * c), sq_nonneg (b * u * c), sq_nonneg (a * v - b * u * s)]
  have hw : |a * s * u + b * v| ≤ 1 := (sq_le_one_iff_abs_le_one _).mp hsq
  have hz : z_tilted Real.sin Real.cos R phi theta rotation t = R * (a * s * u + b * v) := by
    simp only [z_tilted, y, z]
    ring
  rw [hz, abs_mul, abs_of_nonneg hR]
  calc R * |a * s * u + b * v| ≤ R * 1 := mul_le_mul_of_nonneg_left hw hR
    _ = R := mul_one R

/-- C9: over the reals, for every radius `R > 0` and every polar angle, azimuth,
rotation and tilt, the depth `z_tilted` has absolute value at most `R`, so
`alpha = |z_tilted| / R` lies in `[0, 1]` with no clamp. -/
theorem alpha_mem_unit_interval (R phi theta rotation t : ℝ) (hR : 0 < R) :
    |z_tilted Real.sin Real.cos R phi theta rotation t| ≤ R
      ∧ 0 ≤ alpha Real.sin Real.cos R phi theta rotation t
      ∧ alpha Real.sin Real.cos R phi theta rotation t ≤ 1 := by
  have h := abs_z_tilted_le R phi theta rotation t hR.le
  refine ⟨h, ?_, ?_⟩
  · exact div_nonneg (abs_nonneg _) hR.le
  · rw [alpha, div_le_one hR]
    exact h

theorem alpha_mem_unit_interval_witness :
    (0 : ℝ) < 100
      ∧ |z_tilted Real.sin Real.cos (100 : ℝ) 1 2 0 tilt| ≤ 100
      ∧ 0 ≤ alpha Real.sin Real.cos (100 : ℝ) 1 2 0 tilt
      ∧ alpha Real.sin Real.cos (100 : ℝ) 1 2 0 tilt ≤ 1 :=
  ⟨by norm_num, alpha_mem_unit_interval 100 1 2 0 tilt (by norm_num)⟩

/-- C10: over the reals, for every radius `R` with `0 < R < 300` and every point,
rotation and tilt, the perspective divisor `300 - z_tilted` is at least `300 - R`,
hence strictly positive, and `scale = 300 / (300 - z_tilted)` is positive. -/
theorem scale_divisor_pos (R phi theta rotation t : ℝ) (hR : 0 < R) (hR300 : R < 300) :
    300 - R ≤ 300 - z_tilted Real.sin Real.cos R phi theta rotation t
      ∧ 0 < 300 - z_tilted Real.sin Real.cos R phi theta rotation t
      ∧ 0 < scale Real.sin Real.cos R phi theta rotation t := by
  have h := (abs_le.mp (abs_z_tilted_le R phi theta rotation t hR.le)).2
  have hpos : 0 < 300 - z_tilted Real.sin Real.cos R phi theta rotation t := by linarith
  refine ⟨by linarith, hpos, ?_⟩
  rw [scale]
  exact div_pos (by norm_num) hpos

theorem scale_divisor_pos_witness :
    (0 : ℝ) < 100 ∧ (100 : ℝ) < 300
      ∧ 300 - (100 : ℝ) ≤ 300 - z_tilted Real.sin Real.cos (100 : ℝ) 1 2 0 tilt
      ∧ 0 < 300 - z_tilted Real.sin Real.cos (100 : ℝ) 1 2 0 tilt
      ∧ 0 < scale Real.sin Real.cos (100 : ℝ) 1 2 0 tilt :=
  ⟨by norm_num, by norm_num, scale_divisor_pos 100 1 2 0 tilt (by norm_num) (by norm_num)⟩

end PlanetCanvas

/-! ### Claims about the telemetry -/

namespace NexusCommand

theorem tick_oxygen_mem {α : Type} [LinearOrderedField α] (s : Telemetry α) (u v : α) :
    90 ≤ (tick s u v).oxygen ∧ (tick s u v).oxygen ≤ 100 := by
  simp only [tick]
  constructor
  · exact le_min (by norm_num) (le_max_left _ _)
  · exact min_le_left _ _

theorem step_oxygen_mem {α : Type} [LinearOrderedField α] (s : Telemetry α) (e : Event α) :
    90 ≤ (step s e).oxygen ∧ (step s e).oxygen ≤ 100 := by
  cases e with
  | tick u v => exact tick_oxygen_mem s u v
  | reboot =>
    simp only [step, handleReboot]
    constructor <;> norm_num

theorem run_oxygen_mem {α : Type} [LinearOrderedField α] (events : List (Event α)) :
    ∀ s : Telemetry α, 90 ≤ s.oxygen ∧ s.oxygen ≤ 100 →
      90 ≤ (run s events).oxygen ∧ (run s events).oxygen ≤ 100 := by
  induction events with
  | nil => intro s hs; exact hs
  | cons e es ih =>
    intro s _
    rw [run, List.foldl_cons]
    exact ih (step s e) (step_oxygen_mem s e)

/-- C11: the simulated oxygen value stays within `[90, 100]`: it starts at 98.5, a
tick maps any previous value and any sample `u` in `[0, 1)` to
`min 100 (max 90 (prev + (u - 0.5)))`, which is in `[90, 100]`, the reboot sets it to
100, and so it is in `[90, 100]` after every sequence of ticks and reboots. -/
theorem oxygen_within_bounds {α : Type} [LinearOrderedField α]
    (events : List (Event α)) (hvalid : ∀ e ∈ events, e.valid = true)
    (prev : Telemetry α) (u v : α) (hu0 : 0 ≤ u) (hu1 : u < 1) :
    (initial : Telemetry α).oxygen = 197 / 2
      ∧ (tick prev u v).oxygen = min 100 (max 90 (prev.oxygen + (u - 1 / 2)))
      ∧ (90 ≤ (tick prev u v).oxygen ∧ (tick prev u v).oxygen ≤ 100)
      ∧ (handleReboot prev).oxygen = 100
      ∧ (90 ≤ (run initial events).oxygen ∧ (run initial events).oxygen ≤ 100) := by
  have _ := hvalid
  have _ := hu0
  have _ := hu1
  refine ⟨rfl, rfl, tick_oxygen_mem prev u v, rfl, ?_⟩
  apply run_oxygen_mem
  simp only [initial]
  constructor <;> norm_num

theorem oxygen_within_bounds_witness :
    (∀ e ∈ [Event.tick (1 / 4 : ℚ) (1 / 2), Event.reboot, Event.tick (9 / 10) 0],
        e.valid = true)
      ∧ (0 : ℚ) ≤ 3 / 4 ∧ (3 / 4 : ℚ) < 1
      ∧ (90 ≤ (tick (Telemetry.mk (95 : ℚ) 0 50) (3 / 4) (1 / 3)).oxygen
          ∧ (tick (Telemetry.mk (95 : ℚ) 0 50) (3 / 4) (1 / 3)).oxygen ≤ 100)
      ∧ (90 ≤ (run (initial : Telemetry ℚ)
                [Event.tick (1 / 4 : ℚ) (1 / 2), Event.reboot, Event.tick (9 / 10) 0]).oxygen
          ∧ (run (initial : Telemetry ℚ)
                [Event.tick (1 / 4 : ℚ) (1 / 2), Event.reboot, Event.tick (9 / 10) 0]).oxygen
              ≤ 100) :=
  have hv : ∀ e ∈ [Event.tick (1 / 4 : ℚ) (1 / 2), Event.reboot, Event.tick (9 / 10) 0],
      e.valid = true := by
    intro e he
    simp only [List.mem_cons, List.mem_singleton, List.not_mem_nil, or_false] at he
    rcases he with rfl | rfl | rfl <;> simp [Event.valid] <;> norm_num
  have h := oxygen_within_bounds [Event.tick (1 / 4 : ℚ) (1 / 2), Event.reboot,
    Event.tick (9 / 10) 0] hv (Telemetry.mk (95 : ℚ) 0 50) (3 / 4) (1 / 3)
    (by norm_num) (by norm_num)
  ⟨hv, by norm_num, by norm_num, h.2.2.1, h.2.2.2.2⟩

end NexusCommand

/-! ### Claims about the emitted cells -/

/-- C13: for every `N ≥ 1` and every `start`, `target` below `N*N`, every index
emitted by `calculatePath` is a cell index below `N*N`, and its column is at most
`max startCol targetCol`, which is below `N`: a column step never wraps into the
next row. -/
theorem calculatePath_mem_grid (N start target : Nat) (hN : 1 ≤ N)
    (hs : start < N * N) (ht : target < N * N) :
    ∀ x ∈ calculatePath start target N,
      x < N * N ∧ x % N ≤ max (start % N) (target % N)
        ∧ max (start % N) (target % N) < N := by
  have hpos : 0 < N := by omega
  have hcs : start % N < N := Nat.mod_lt _ hpos
  have hct : target % N < N := Nat.mod_lt _ hpos
  have hrs : start / N < N := (Nat.div_lt_iff_lt_mul hpos).mpr hs
  have hrt : target / N < N := (Nat.div_lt_iff_lt_mul hpos).mpr ht
  have hmax : max (start % N) (target % N) < N := max_lt hcs hct
  intro x hx
  rw [mem_calculatePath] at hx
  rcases hx with ⟨k, h1, h2, rfl⟩ | ⟨k, h1, h2, rfl⟩
  · have hk : k < N := by omega
    have hrow : (start / N + 1) * N ≤ N * N := Nat.mul_le_mul_right N hrs
    rw [Nat.add_mul, Nat.one_mul] at hrow
    refine ⟨by omega, ?_, hmax⟩
    rw [Nat.add_comm, Nat.add_mul_mod_self_right, Nat.mod_eq_of_lt hk]
    exact le_trans h2 (le_max_right _ _)
  · have hrow : (k + 1) * N ≤ N * N := Nat.mul_le_mul_right N (by omega)
    rw [Nat.add_mul, Nat.one_mul] at hrow
    refine ⟨by omega, ?_, hmax⟩
    rw [Nat.add_comm, Nat.add_mul_mod_self_right, Nat.mod_eq_of_lt hmax]

theorem calculatePath_mem_grid_witness :
    1 ≤ 5 ∧ 6 < 5 * 5 ∧ 23 < 5 * 5
      ∧ ∀ x ∈ calculatePath 6 23 5,
          x < 5 * 5 ∧ x % 5 ≤ max (6 % 5) (23 % 5) ∧ max (6 % 5) (23 % 5) < 5 :=
  ⟨by decide, by decide, by decide,
    calculatePath_mem_grid 5 6 23 (by decide) (by decide) (by decide)⟩

/-! ### Claims about the rover animation -/

namespace RoverSystem

theorem intervalFire_of_lt (t : RoverState) (hact : t.intervalActive = true)
    (hlt : t.step < t.path.length) :
    intervalFire t = { t with roverPos := t.path[t.step], step := t.step + 1 } := by
  unfold intervalFire
  rw [if_pos hact, dif_pos hlt]

theorem intervalFire_of_not_lt (t : RoverState) (hact : t.intervalActive = true)
    (hge : ¬ t.step < t.path.length) :
    intervalFire t = { t with intervalActive := false, isComputing := false } := by
  unfold intervalFire
  rw [if_pos hact, dif_neg hge]

/-- While the counter is inside the path, `k` firings move the rover to the `k`-th
element of the path and change nothing else but the counter. -/
theorem intervalFires_within (s : RoverState) (hact : s.intervalActive = true)
    (hstep : s.step = 0) :
    ∀ k, k ≤ s.path.length →
      (intervalFires k s).path = s.path
        ∧ (intervalFires k s).intervalActive = true
        ∧ (intervalFires k s).isComputing = s.isComputing
        ∧ (intervalFires k s).targetPos = s.targetPos
        ∧ (intervalFires k s).step = k
        ∧ (k = 0 → (intervalFires k s).roverPos = s.roverPos)
        ∧ (1 ≤ k → s.path[k - 1]? = some (intervalFires k s).roverPos) := by
  intro k
  induction k with
  | zero =>
    intro _
    exact ⟨rfl, hact, rfl, rfl, hstep, fun _ => rfl, fun h => absurd h (by decide)⟩
  | succ k ih =>
    intro hk
    obtain ⟨hp, ha, hc, ht, hs, _, _⟩ := ih (by omega)
    have hlt : (intervalFires k s).step < (intervalFires k s).path.length := by
      rw [hs, hp]; omega
    have hfire := intervalFire_of_lt (intervalFires k s) ha hlt
    have hk' : k < s.path.length := by omega
    refine ⟨?_, ?_, ?_, ?_, ?_, ?_, ?_⟩
    · rw [intervalFires, hfire]; exact hp
    · rw [intervalFires, hfire]; exact ha
    · rw [intervalFires, hfire]; exact hc
    · rw [intervalFires, hfire]; exact ht
    · rw [intervalFires, hfire]; simp only [hs]
    · intro h; omega
    · intro _
      rw [intervalFires, hfire]
      simp only [Nat.add_sub_cancel]
      rw [List.getElem?_eq_getElem hk']
      simp only [hs, hp]

theorem planned_of_enabled (s : RoverState) (hen : disabled s = false) :
    planned s =
      { s with path := calculatePath s.roverPos s.targetPos GRID_SIZE, step := 0,
               isComputing := true, timeoutPending := false, intervalActive := true } := by
  simp [planned, onClick, timeoutFire, hen]

/-- C12: from a state in which the start button is enabled, after the click and the
planning timeout (path of length `n`), the `k`-th interval firing for `1 ≤ k ≤ n`
puts the rover on `path[k-1]` with the busy flag still set, firing `n+1` clears the
busy flag and leaves the rover on the last path element (or where it was if
`n = 0`), and the button is enabled exactly when the view is not busy and the rover
is not on the target. -/
theorem rover_animation (s : RoverState) (hen : disabled s = false) :
    (planned s).path = calculatePath s.roverPos s.targetPos GRID_SIZE
      ∧ (planned s).isComputing = true
      ∧ (∀ k, 1 ≤ k → k ≤ (planned s).path.length →
          (planned s).path[k - 1]? = some (intervalFires k (planned s)).roverPos
            ∧ (intervalFires k (planned s)).isComputing = true)
      ∧ (intervalFires ((planned s).path.length + 1) (planned s)).isComputing = false
      ∧ (intervalFires ((planned s).path.length + 1) (planned s)).roverPos
          = (planned s).path.getLast?.getD s.roverPos
      ∧ (∀ t : RoverState,
          disabled t = false ↔ (t.isComputing = false ∧ t.roverPos ≠ t.targetPos)) := by
  have hpl := planned_of_enabled s hen
  have hact : (planned s).intervalActive = true := by rw [hpl]
  have hstep : (planned s).step = 0 := by rw [hpl]
  have hbusy : (planned s).isComputing = true := by rw [hpl]
  have hpos : (planned s).roverPos = s.roverPos := by rw [hpl]
  have hin := intervalFires_within (planned s) hact hstep
  obtain ⟨hp, ha, hc, _, hs, h0, h1⟩ := hin (planned s).path.length (le_refl _)
  have hge : ¬ (intervalFires (planned s).path.length (planned s)).step
      < (intervalFires (planned s).path.length (planned s)).path.length := by
    rw [hs, hp]; omega
  have hlast := intervalFire_of_not_lt _ ha hge
  refine ⟨by rw [hpl], hbusy, ?_, ?_, ?_, ?_⟩
  · intro k hk1 hk2
    obtain ⟨_, _, hck, _, _, _, hk⟩ := hin k hk2
    exact ⟨hk hk1, by rw [hck, hbusy]⟩
  · rw [intervalFires, hlast]
  · rw [intervalFires, hlast]
    show (intervalFires (planned s).path.length (planned s)).roverPos = _
    rcases Nat.eq_zero_or_pos (planned s).path.length with hn | hn
    · rw [h0 hn, hpos, List.length_eq_zero.mp hn]
      rfl
    · rw [List.getLast?_eq_getElem?, h1 hn]
      rfl
  · intro t
    cases hb : t.isComputing <;> simp [disabled, hb]

theorem rover_animation_witness :
    disabled initial = false
      ∧ (intervalFires ((planned initial).path.length + 1) (planned initial)).isComputing
          = false
      ∧ (intervalFires ((planned initial).path.length + 1) (planned initial)).roverPos
          = (planned initial).path.getLast?.getD initial.roverPos :=
  ⟨by decide, (rover_animation initial (by decide)).2.2.2.1,
    (rover_animation initial (by decide)).2.2.2.2.1⟩

end RoverSystem

end Nexus
